import Mathlib

/-!
Verification of the resilient AI-request layer of `backend/app/services/ai_service.py`
(classes `CircuitBreaker` and `AIService`).

The Python code is shallowly embedded: timestamps become explicit `Int` arguments
(`datetime.utcnow()` becomes a `now` parameter), the mutable `CircuitBreaker` object
becomes explicit state passing, the network becomes an oracle list of per-attempt
outcomes, and Python exceptions become `Except` values threaded through an explicit
model of the `try/except` clause chain.
-/

namespace ResumeTwin

/-- States of the circuit breaker (`CircuitBreakerState` in the source):
CLOSED = normal operation, OPEN = requests blocked, HALF_OPEN = testing recovery. -/
inductive CircuitBreakerState where
  | closed
  | opened
  | halfOpen
deriving DecidableEq, Repr

/-- The `CircuitBreaker` object: configuration (`failure_threshold`, `timeout_seconds`)
and mutable fields (`failure_count`, `state`, `last_failure_time`).  Timestamps are
modelled as integer seconds. -/
structure CircuitBreaker where
  failure_threshold : Nat
  timeout_seconds : Nat
  failure_count : Nat
  state : CircuitBreakerState
  last_failure_time : Option Int
deriving DecidableEq, Repr

/-- Constructor `CircuitBreaker.__init__`: `failure_count = 0`, state CLOSED, no
failure time.  The source defaults are `failure_threshold = 5`, `timeout_seconds = 60`. -/
def mkCircuitBreaker (threshold timeout : Nat) : CircuitBreaker :=
  { failure_threshold := threshold
    timeout_seconds := timeout
    failure_count := 0
    state := .closed
    last_failure_time := none }

/-- Method `CircuitBreaker.record_success`: reset `failure_count` to 0 and state to
CLOSED (`last_failure_time` is left untouched by the source). -/
def CircuitBreaker.record_success (cb : CircuitBreaker) : CircuitBreaker :=
  { cb with failure_count := 0, state := .closed }

/-- Method `CircuitBreaker.record_failure` at time `now`: increment `failure_count`,
stamp `last_failure_time`, and open the circuit once
`failure_count >= failure_threshold`. -/
def CircuitBreaker.record_failure (cb : CircuitBreaker) (now : Int) : CircuitBreaker :=
  let cb' := { cb with
    failure_count := cb.failure_count + 1
    last_failure_time := some now }
  if cb'.failure_count ≥ cb'.failure_threshold then
    { cb' with state := .opened }
  else
    cb'

/-- Method `CircuitBreaker.can_attempt_request` at time `now`: returns the boolean
answer together with the (possibly updated) breaker.  CLOSED: true.  OPEN: false unless
`now - last_failure_time >= timeout_seconds`, in which case transition to HALF_OPEN
and return true.  HALF_OPEN: true. -/
def CircuitBreaker.can_attempt_request (cb : CircuitBreaker) (now : Int) :
    Bool × CircuitBreaker :=
  match cb.state with
  | .closed => (true, cb)
  | .opened =>
    match cb.last_failure_time with
    | none => (false, cb)
    | some t =>
      if now - t ≥ (cb.timeout_seconds : Int) then
        (true, { cb with state := .halfOpen })
      else
        (false, cb)
  | .halfOpen => (true, cb)

/-! ## The request layer: `AIService._make_api_request`

The network is modelled as an oracle list of per-attempt outcomes: each time the
body of `_make_api_request` reaches `self.client.post(...)`, the next outcome of
the list describes what the HTTP round-trip (together with `response.json()`) did.
A 2xx/3xx response carries `some content` for a well-formed envelope whose
`choices[0].message.content` equals `content`, and `none` for an envelope with
missing/empty `choices` or empty content (the checks performed by the callers).
-/

/-- One network attempt outcome: `client.post` raised `httpx.TimeoutException`,
raised `httpx.NetworkError`, raised some other exception (this also covers a
`response.json()` failure), or returned a response with the given status code. -/
inductive AttemptOutcome where
  | timeoutExc
  | networkExc
  | otherExc
  | response (code : Nat) (content : Option (List Char))
deriving DecidableEq, Repr

/-- The application-level errors raised by the request layer
(`AIServiceUnavailableError`, `AIAPIError`, `AIRateLimitError`, `AITimeoutError`,
`AIInvalidResponseError`).  All of them subclass `Exception` (via
`ResumeTwinException`) and none subclasses an `httpx` exception type. -/
inductive AIErrorKind where
  | serviceUnavailable
  | apiError
  | rateLimit
  | timeout
  | invalidResponse
deriving DecidableEq, Repr

/-- A Python exception as seen by the `except` clauses and by tenacity:
either one of the two `httpx` transient exception types, an application error
from the taxonomy above, or any other exception. -/
inductive PyExc where
  | httpxTimeout
  | httpxNetwork
  | ai (k : AIErrorKind)
  | other
  | retryError
deriving DecidableEq, Repr

/-- The `try:` suite of `_make_api_request` (source lines 333-377): post the
request, then
* status 429: `record_failure()` and raise `AIRateLimitError`;
* status >= 400: `record_failure()` and raise `AIAPIError`;
* otherwise: `record_success()` and return the parsed envelope.
Exceptions raised by `client.post` / `response.json()` escape the suite as-is. -/
def requestTryBlock (outcome : AttemptOutcome) (now : Int) (cb : CircuitBreaker) :
    Except PyExc (Option (List Char)) × CircuitBreaker :=
  match outcome with
  | .timeoutExc => (.error .httpxTimeout, cb)
  | .networkExc => (.error .httpxNetwork, cb)
  | .otherExc => (.error .other, cb)
  | .response code content =>
    if code = 429 then
      (.error (.ai .rateLimit), cb.record_failure now)
    else if code ≥ 400 then
      (.error (.ai .apiError), cb.record_failure now)
    else
      (.ok content, cb.record_success)

/-- The `except` clause chain of `_make_api_request` (source lines 379-410),
applied to an exception escaping the `try:` suite, in source order:
`except httpx.TimeoutException` → `record_failure()`, raise `AITimeoutError`;
`except httpx.NetworkError` → `record_failure()`, raise `AIServiceUnavailableError`;
`except Exception` → `record_failure()`, raise `AIAPIError`.  The final clause
catches every remaining exception, including the `AIRateLimitError` / `AIAPIError`
raised inside the `try:` suite itself. -/
def requestExceptChain (e : PyExc) (now : Int) (cb : CircuitBreaker) :
    PyExc × CircuitBreaker :=
  match e with
  | .httpxTimeout => (.ai .timeout, cb.record_failure now)
  | .httpxNetwork => (.ai .serviceUnavailable, cb.record_failure now)
  | _ => (.ai .apiError, cb.record_failure now)

/-- One full invocation of the body of `_make_api_request` (one tenacity attempt):
check the circuit breaker gate, check the client, then run the `try/except`.
Returns the result, the breaker, and whether `client.post` was reached (i.e. a
network call was made and an oracle outcome consumed). -/
def requestAttempt (clientInit : Bool) (outcome : AttemptOutcome) (now : Int)
    (cb : CircuitBreaker) : Except PyExc (Option (List Char)) × CircuitBreaker × Bool :=
  let gate := cb.can_attempt_request now
  if gate.1 = false then
    (.error (.ai .serviceUnavailable), gate.2, false)
  else if clientInit = false then
    (.error (.ai .serviceUnavailable), gate.2, false)
  else
    match requestTryBlock outcome now gate.2 with
    | (.ok v, cb') => (.ok v, cb', true)
    | (.error e, cb') =>
      let h := requestExceptChain e now cb'
      (.error h.1, h.2, true)

/-- The tenacity retry predicate, `retry_if_exception_type((httpx.TimeoutException,
httpx.NetworkError))`: retry exactly when the exception raised by the wrapped
function is one of the two `httpx` transient types. -/
def tenacityShouldRetry : PyExc → Bool
  | .httpxTimeout => true
  | .httpxNetwork => true
  | _ => false

deriving instance DecidableEq for Except

/-- Result of a whole `_make_api_request` call: the surfaced result, the final
breaker state, and the number of network calls (`client.post` invocations) made. -/
structure SendResult where
  result : Except PyExc (Option (List Char))
  breaker : CircuitBreaker
  networkCalls : Nat
deriving DecidableEq, Repr

/-- The tenacity `@retry` loop around the body, with `stop_after_attempt(3)`:
run the body; on an exception matching the retry predicate, re-attempt while
attempts remain, otherwise surface the exception.  `remaining` counts the
attempts still allowed (3 at entry = `MAX_RETRY_ATTEMPTS`). -/
def requestLoop (clientInit : Bool) (now : Int) : List AttemptOutcome → Nat →
    CircuitBreaker → Nat → SendResult
  | _, 0, cb, calls => ⟨.error .retryError, cb, calls⟩
  | outcomes, remaining + 1, cb, calls =>
    let o := outcomes.headD .otherExc
    let rest := outcomes.tailD []
    let (r, cb', used) := requestAttempt clientInit o now cb
    let calls' := calls + (if used then 1 else 0)
    match r with
    | .ok v => ⟨.ok v, cb', calls'⟩
    | .error e =>
      if tenacityShouldRetry e then
        requestLoop clientInit now rest remaining cb' calls'
      else
        ⟨.error e, cb', calls'⟩

/-- Model of `AIService._make_api_request` end to end: the tenacity-decorated
body with `MAX_RETRY_ATTEMPTS = 3`.  `clientInit` says whether `self.client` is
initialized; `outcomes` is the network oracle. -/
def make_api_request (clientInit : Bool) (now : Int) (outcomes : List AttemptOutcome)
    (cb : CircuitBreaker) : SendResult :=
  requestLoop clientInit now outcomes 3 cb 0

/-! ## The response extractor: `AIService._extract_json_from_response`

Text is modelled as `List Char`.  The two regular expressions of the source are
transcribed as explicit scans with the exact `re.search` semantics:
a leftmost match for the lazy fenced-block pattern, and the span from the first
opening brace to the last closing brace for the greedy `DOTALL` brace pattern.
The library call `json.loads` is external to this repository and is abstracted
as a parameter `jparse`; every theorem about the extractor quantifies over it. -/

/-- First index at which `pat` occurs as a prefix of a suffix of `s`
(the leftmost match position of a literal pattern, as found by `re.search`). -/
def findSubstrFrom (pat : List Char) : List Char → Option Nat
  | [] => if pat.isPrefixOf ([] : List Char) then some 0 else none
  | c :: rest =>
    if pat.isPrefixOf (c :: rest) then some 0
    else (findSubstrFrom pat rest).map (· + 1)

/-- The opening delimiter of the fenced pattern, the eight characters matched by
the literal part of the regex before the lazy group. -/
def fenceOpen : List Char := "```json\n".toList

/-- The closing delimiter of the fenced pattern, the four characters matched by
the literal part of the regex after the lazy group. -/
def fenceClose : List Char := "\n```".toList

/-- Step 1 of the extraction strategy: the first `re.search` of
`_extract_json_from_response`, pattern `(fenced json block)` with `re.DOTALL` and a
lazy interior.  The leftmost match starts at the first occurrence of the opening
delimiter, and the lazy group ends at the first occurrence of the closing
delimiter after it; the interior of the block is returned. -/
def extractFenced (s : List Char) : Option (List Char) :=
  match findSubstrFrom fenceOpen s with
  | none => none
  | some i =>
    let rest := s.drop (i + fenceOpen.length)
    match findSubstrFrom fenceClose rest with
    | none => none
    | some j => some (rest.take j)

/-- The opening brace character. -/
def openBrace : Char := '\x7b'

/-- The closing brace character. -/
def closeBrace : Char := '\x7d'

/-- Step 2 of the extraction strategy: the second `re.search` of
`_extract_json_from_response`, a greedy brace pattern with `re.DOTALL`.  The
leftmost match starts at the first opening brace, and greediness makes it end at
the last closing brace of the whole text (located as the first closing brace of
the reversed text); the pattern puts at least zero characters between an opening
brace and a strictly later closing brace, so a match requires the last closing
brace to lie strictly after the first opening brace. -/
def extractBraced (s : List Char) : Option (List Char) :=
  match findSubstrFrom [openBrace] s, findSubstrFrom [closeBrace] s.reverse with
  | some i, some k =>
    let j := s.length - 1 - k
    if i < j then some ((s.drop i).take (j - i + 1)) else none
  | _, _ => none

/-- Candidate selection of `_extract_json_from_response` (source lines 426-436):
the interior of a fenced json block if one matches, else the greedy brace span if
one matches, else the entire text. -/
def selectJsonCandidate (s : List Char) : List Char :=
  match extractFenced s with
  | some interior => interior
  | none =>
    match extractBraced s with
    | some braced => braced
    | none => s

/-- Model of `AIService._extract_json_from_response`: parse the selected candidate
with `json.loads` (abstracted as `jparse`); on a `json.JSONDecodeError`, fail with
`AIInvalidResponseError` whose diagnostic context carries `content[:200]`, the
first 200 characters of the original text. -/
def extract_json_from_response {α : Type} (jparse : List Char → Option α)
    (s : List Char) : Except (List Char) α :=
  match jparse (selectJsonCandidate s) with
  | some v => .ok v
  | none => .error (s.take 200)

/-! ## The analyzer: `AIService.analyze_job_description` -/

/-- Source constant `MIN_JOB_DESCRIPTION_LENGTH`. -/
def MIN_JOB_DESCRIPTION_LENGTH : Nat := 50

/-- Source constant `MAX_JOB_DESCRIPTION_LENGTH`. -/
def MAX_JOB_DESCRIPTION_LENGTH : Nat := 10000

/-- Whitespace characters removed by the Python `str.strip()` method: the exact
set for which CPython `Py_UNICODE_ISSPACE` holds — the ASCII whitespace
characters U+0009..U+000D and U+0020, the separators U+001C..U+001F, NEL U+0085,
NBSP U+00A0, and the Unicode space separators U+1680, U+2000..U+200A, U+2028,
U+2029, U+202F, U+205F and U+3000. -/
def isPySpace (c : Char) : Bool :=
  (0x09 ≤ c.toNat && c.toNat ≤ 0x0d) || c.toNat == 0x20 ||
  (0x1c ≤ c.toNat && c.toNat ≤ 0x1f) || c.toNat == 0x85 || c.toNat == 0xa0 ||
  c.toNat == 0x1680 || (0x2000 ≤ c.toNat && c.toNat ≤ 0x200a) ||
  c.toNat == 0x2028 || c.toNat == 0x2029 || c.toNat == 0x202f ||
  c.toNat == 0x205f || c.toNat == 0x3000

/-- Python `str.strip()`: remove leading and trailing whitespace. -/
def pyStrip (s : List Char) : List Char :=
  ((s.dropWhile isPySpace).reverse.dropWhile isPySpace).reverse

/-- The three distinct `JobDescriptionInvalidError` rejections raised by the
validation phase of `analyze_job_description`. -/
inductive ValidationError where
  | emptyDesc
  | tooShort
  | tooLong
deriving DecidableEq, Repr

/-- Validation phase of `analyze_job_description` (source lines 469-488), run
before any network activity: reject when the input is empty or whitespace-only,
then strip, then reject when the stripped length is below
`MIN_JOB_DESCRIPTION_LENGTH` or above `MAX_JOB_DESCRIPTION_LENGTH`; otherwise
continue with the stripped text. -/
def validate_job_description (s : List Char) : Except ValidationError (List Char) :=
  if s.isEmpty || (pyStrip s).isEmpty then .error .emptyDesc
  else
    let t := pyStrip s
    if t.length < MIN_JOB_DESCRIPTION_LENGTH then .error .tooShort
    else if t.length > MAX_JOB_DESCRIPTION_LENGTH then .error .tooLong
    else .ok t

/-- Errors surfaced by `analyze_job_description`: a locally raised
`JobDescriptionInvalidError`, one of the AI-service errors re-raised unchanged,
or a wrapping `JobParsingError`. -/
inductive AnalyzeError where
  | invalidInput (v : ValidationError)
  | ai (k : AIErrorKind)
  | jobParsing
deriving DecidableEq, Repr

/-- The `except` clauses of `analyze_job_description` (source lines 567-578),
applied to an exception escaping its `try:` suite:
`except (AIServiceUnavailableError, AIAPIError, AIRateLimitError, AITimeoutError)`
re-raises unchanged, and `except Exception` wraps everything else — including
`AIInvalidResponseError`, which is absent from the re-raise tuple — into
`JobParsingError`, preserving the original cause. -/
def analyzeCatch : PyExc → AnalyzeError
  | .ai .serviceUnavailable => .ai .serviceUnavailable
  | .ai .apiError => .ai .apiError
  | .ai .rateLimit => .ai .rateLimit
  | .ai .timeout => .ai .timeout
  | _ => .jobParsing

/-- Model of `AIService.analyze_job_description` (source lines 452-578):
validate (before any breaker or client interaction), then inside the `try:`
suite send the request, check the response envelope (missing/empty
`choices`/content raises `AIInvalidResponseError`, modelled by the `none`
payload), extract JSON, and map the parsed value into a `JobAnalysis`
(the pydantic construction, abstracted as `mapJob`; its failure raises an
exception of some other type).  Exceptions are dispatched via `analyzeCatch`.
Returns the result, the final breaker and the number of network calls. -/
def analyze_job_description {α β : Type} (jparse : List Char → Option α)
    (mapJob : α → Option β) (clientInit : Bool) (now : Int)
    (outcomes : List AttemptOutcome) (cb : CircuitBreaker) (desc : List Char) :
    Except AnalyzeError β × CircuitBreaker × Nat :=
  match validate_job_description desc with
  | .error v => (.error (.invalidInput v), cb, 0)
  | .ok _ =>
    let r := make_api_request clientInit now outcomes cb
    let res : Except PyExc β :=
      match r.result with
      | .error e => .error e
      | .ok none => .error (.ai .invalidResponse)
      | .ok (some content) =>
        match extract_json_from_response jparse content with
        | .error _ => .error (.ai .invalidResponse)
        | .ok v =>
          match mapJob v with
          | none => .error .other
          | some b => .ok b
    match res with
    | .ok b => (.ok b, r.breaker, r.networkCalls)
    | .error e => (.error (analyzeCatch e), r.breaker, r.networkCalls)

/-! ## The optimization result model: `ResumeOptimization` -/

/-- The `ResumeOptimization` pydantic model.  Scores are modelled as rationals;
the values relevant to the bound checks (0, 100, 150, -10 and everything in
between) are exactly representable floats, so no rounding is abstracted away. -/
structure ResumeOptimization where
  match_score : ℚ
  missing_skills : List String
  matching_skills : List String
  keyword_suggestions : List String
  content_improvements : List (String × String)
  formatting_suggestions : List String
  ats_compatibility_score : ℚ
deriving DecidableEq, Repr

/-- Construction of `ResumeOptimization`, with the pydantic field constraints
`match_score: Field(ge=0, le=100)` and `ats_compatibility_score: Field(ge=0,
le=100)`: construction succeeds exactly when both scores lie in the closed
interval, and out-of-range scores are rejected (a `ValidationError`, modelled as
`none`), never clamped. -/
def mkResumeOptimization (ms : ℚ) (miss mat kw : List String)
    (ci : List (String × String)) (fs : List String) (ats : ℚ) :
    Option ResumeOptimization :=
  if 0 ≤ ms ∧ ms ≤ 100 ∧ 0 ≤ ats ∧ ats ≤ 100 then
    some ⟨ms, miss, mat, kw, ci, fs, ats⟩
  else
    none

/-! ## Auxiliary definitions used to state the claims -/

/-- Iterated `record_failure`, one call per timestamp in `ts`, in order. -/
def recordFailures (cb : CircuitBreaker) (ts : List Int) : CircuitBreaker :=
  ts.foldl (fun c t => c.record_failure t) cb

/-- The three public operations of the circuit breaker, for traces. -/
inductive CBOp where
  | recordSuccess
  | recordFailure
  | canAttempt
deriving DecidableEq, Repr

/-- One timestamped operation applied to the breaker (the boolean answer of
`can_attempt_request` is discarded, only the state change is kept). -/
def cbStep (cb : CircuitBreaker) : CBOp × Int → CircuitBreaker
  | (.recordSuccess, _) => cb.record_success
  | (.recordFailure, t) => cb.record_failure t
  | (.canAttempt, t) => (cb.can_attempt_request t).2

/-- Run a trace of timestamped operations from a starting breaker. -/
def runOps (cb : CircuitBreaker) (ops : List (CBOp × Int)) : CircuitBreaker :=
  ops.foldl cbStep cb

/-- Whether, at time `now`, less than `timeout_seconds` has elapsed since
`last_failure_time` (false when no failure was ever recorded). -/
def recentFailure (cb : CircuitBreaker) (now : Int) : Bool :=
  match cb.last_failure_time with
  | none => false
  | some t => decide (now - t < (cb.timeout_seconds : Int))

/-- The inductive invariant of the breaker, evaluated at the time of the most
recent operation: CLOSED states sit below the threshold, OPEN states are at the
threshold with a recent failure, HALF_OPEN states are at the threshold with the
recovery timeout elapsed. -/
def cbInv (cb : CircuitBreaker) (now : Int) : Prop :=
  (cb.state = .closed → cb.failure_count < cb.failure_threshold) ∧
  (cb.state = .opened →
    cb.failure_threshold ≤ cb.failure_count ∧ recentFailure cb now = true) ∧
  (cb.state = .halfOpen →
    cb.failure_threshold ≤ cb.failure_count ∧
    cb.last_failure_time ≠ none ∧ recentFailure cb now = false)

/-- Occurrence of the literal pattern `pat` at index `i` of `s`, the matching
semantics of `re.search` for a literal. -/
def occursAt (pat s : List Char) (i : Nat) : Prop :=
  pat.isPrefixOf (s.drop i) = true

instance (pat s : List Char) (i : Nat) : Decidable (occursAt pat s i) := by
  unfold occursAt; infer_instance

/-- Presence of a fenced json block in `s`: an occurrence of the opening
delimiter followed, at or after its end, by an occurrence of the closing
delimiter — exactly when the fenced regex of the source matches. -/
def hasFencedBlock (s : List Char) : Prop :=
  ∃ k q, occursAt fenceOpen s k ∧ occursAt fenceClose s q ∧ k + fenceOpen.length ≤ q

/-- A brace-delimited substring in the sense of the claim: a contiguous
substring of `s` beginning with an opening brace and ending with a closing
brace. -/
def braceDelimited (u s : List Char) : Prop :=
  u.head? = some openBrace ∧ u.getLast? = some closeBrace ∧ u <:+: s

/-! ## Theorems -/

/-- C10: `can_attempt_request` never modifies `failure_count`,
`last_failure_time`, `failure_threshold` or `timeout_seconds`; the only field it
can change is `state`, and the only change it ever makes is the transition from
OPEN to HALF_OPEN — in CLOSED and HALF_OPEN it leaves the breaker completely
unchanged. -/
theorem claim_C10_can_attempt_frame (cb : CircuitBreaker) (now : Int) :
    ((cb.can_attempt_request now).2.failure_threshold = cb.failure_threshold ∧
      (cb.can_attempt_request now).2.timeout_seconds = cb.timeout_seconds ∧
      (cb.can_attempt_request now).2.failure_count = cb.failure_count ∧
      (cb.can_attempt_request now).2.last_failure_time = cb.last_failure_time) ∧
    ((cb.can_attempt_request now).2.state = cb.state ∨
      (cb.state = .opened ∧ (cb.can_attempt_request now).2.state = .halfOpen)) ∧
    (cb.state = .closed → (cb.can_attempt_request now).2 = cb) ∧
    (cb.state = .halfOpen → (cb.can_attempt_request now).2 = cb) := by
  obtain ⟨th, tmo, fc, st, lft⟩ := cb
  unfold CircuitBreaker.can_attempt_request
  cases st <;> simp
  cases lft with
  | none => simp
  | some t => by_cases h : now - t ≥ (tmo : Int) <;> simp [h]

/-- C10 witness: the frame property evaluated on a concrete OPEN breaker whose
recovery timeout has elapsed. -/
theorem claim_C10_can_attempt_frame_witness :
    let cb : CircuitBreaker := ⟨5, 60, 5, .opened, some 0⟩
    (cb.can_attempt_request 100).2.failure_count = cb.failure_count ∧
      (cb.can_attempt_request 100).2.last_failure_time = cb.last_failure_time := by
  refine ⟨(claim_C10_can_attempt_frame ⟨5, 60, 5, .opened, some 0⟩ 100).1.2.2.1,
    (claim_C10_can_attempt_frame ⟨5, 60, 5, .opened, some 0⟩ 100).1.2.2.2⟩

/-- C6: if the breaker is OPEN and at least `timeout_seconds` have elapsed since
`last_failure_time`, `can_attempt_request` returns true and transitions to
HALF_OPEN; this transition happens exactly once — every subsequent call on the
resulting HALF_OPEN breaker returns true without further change; while OPEN with
the timeout not elapsed, it returns false and changes nothing. -/
theorem claim_C6_open_halfopen_transition (cb : CircuitBreaker) (t : Int)
    (hst : cb.state = .opened) (hlt : cb.last_failure_time = some t) :
    (∀ now, (cb.timeout_seconds : Int) ≤ now - t →
      cb.can_attempt_request now = (true, { cb with state := .halfOpen }) ∧
      ∀ now', ({ cb with state := CircuitBreakerState.halfOpen }).can_attempt_request now' =
        (true, { cb with state := .halfOpen })) ∧
    (∀ now, now - t < (cb.timeout_seconds : Int) →
      cb.can_attempt_request now = (false, cb)) := by
  obtain ⟨th, tmo, fc, st, lft⟩ := cb
  cases hst; cases hlt
  unfold CircuitBreaker.can_attempt_request
  refine ⟨fun now h => ⟨by simp [h], fun now' => by simp⟩, fun now h => ?_⟩
  simp [not_le.mpr h]

/-- C6 witness: a concrete OPEN breaker with last failure at time 0 and timeout
60, probed at times 60 (transition) and 59 (blocked). -/
theorem claim_C6_open_halfopen_transition_witness :
    (⟨5, 60, 5, .opened, some 0⟩ : CircuitBreaker).can_attempt_request 60 =
      (true, ⟨5, 60, 5, .halfOpen, some 0⟩) ∧
    (⟨5, 60, 5, .opened, some 0⟩ : CircuitBreaker).can_attempt_request 59 =
      (false, ⟨5, 60, 5, .opened, some 0⟩) := by
  refine ⟨((claim_C6_open_halfopen_transition ⟨5, 60, 5, .opened, some 0⟩ 0 rfl rfl).1
      60 (by decide)).1, (claim_C6_open_halfopen_transition ⟨5, 60, 5, .opened, some 0⟩ 0
      rfl rfl).2 59 (by decide)⟩

/-- C9: `ResumeOptimization` construction rejects any `match_score` or
`ats_compatibility_score` outside `[0, 100]` — in particular `match_score = 150`
and `match_score = -10` are rejected rather than clamped — and accepts every
pair of values in `[0, 100]` inclusive, including the boundaries 0 and 100. -/
theorem claim_C9_score_bounds :
    (∀ ms ats : ℚ, ∀ miss mat kw ci fs,
      (ms < 0 ∨ 100 < ms ∨ ats < 0 ∨ 100 < ats) →
        mkResumeOptimization ms miss mat kw ci fs ats = none) ∧
    (∀ ms ats : ℚ, ∀ miss mat kw ci fs, 0 ≤ ms → ms ≤ 100 → 0 ≤ ats → ats ≤ 100 →
      mkResumeOptimization ms miss mat kw ci fs ats =
        some ⟨ms, miss, mat, kw, ci, fs, ats⟩) ∧
    (∀ ats : ℚ, ∀ miss mat kw ci fs, 0 ≤ ats → ats ≤ 100 →
      mkResumeOptimization 150 miss mat kw ci fs ats = none ∧
      mkResumeOptimization (-10) miss mat kw ci fs ats = none) := by
  refine ⟨fun ms ats miss mat kw ci fs h => ?_,
    fun ms ats miss mat kw ci fs h1 h2 h3 h4 => ?_,
    fun ats miss mat kw ci fs h1 h2 => ?_⟩
  · unfold mkResumeOptimization
    rw [if_neg]
    rintro ⟨a, b, c, d⟩
    rcases h with h | h | h | h <;> linarith
  · simp [mkResumeOptimization, h1, h2, h3, h4]
  · constructor <;> unfold mkResumeOptimization <;> rw [if_neg] <;>
      rintro ⟨a, b, c, d⟩ <;> linarith

/-- C9 witness: boundary scores 0 and 100 are accepted, 150 and -10 rejected. -/
theorem claim_C9_score_bounds_witness :
    mkResumeOptimization 0 [] [] [] [] [] 100 =
      some ⟨0, [], [], [], [], [], 100⟩ ∧
    mkResumeOptimization 150 [] [] [] [] [] 50 = none ∧
    mkResumeOptimization (-10) [] [] [] [] [] 50 = none := by
  refine ⟨claim_C9_score_bounds.2.1 0 100 [] [] [] [] []
      (by norm_num) (by norm_num) (by norm_num) (by norm_num),
    (claim_C9_score_bounds.2.2 50 [] [] [] [] [] (by norm_num) (by norm_num)).1,
    (claim_C9_score_bounds.2.2 50 [] [] [] [] [] (by norm_num) (by norm_num)).2⟩

/-- Every error escaping one attempt of the request body is an application-level
error: the two `httpx` exception types are converted by the except chain before
they can escape, so tenacity never observes them. -/
theorem requestAttempt_error_kind (ci : Bool) (o : AttemptOutcome) (now : Int)
    (cb : CircuitBreaker) (e : PyExc)
    (h : (requestAttempt ci o now cb).1 = .error e) : ∃ k, e = PyExc.ai k := by
  by_cases hg : (cb.can_attempt_request now).1 = false
  · simp [requestAttempt, hg] at h
    exact ⟨.serviceUnavailable, h.symm⟩
  · by_cases hc : ci = false
    · simp [requestAttempt, hg, hc] at h
      exact ⟨.serviceUnavailable, h.symm⟩
    · rcases o with _ | _ | _ | ⟨code, content⟩ <;>
        simp [requestAttempt, hg, hc, requestTryBlock, requestExceptChain] at h
      · exact ⟨.timeout, h.symm⟩
      · exact ⟨.serviceUnavailable, h.symm⟩
      · exact ⟨.apiError, h.symm⟩
      · by_cases h429 : code = 429
        · simp [h429] at h
          exact ⟨.apiError, h.symm⟩
        · by_cases h400 : 400 ≤ code
          · simp [h429, h400] at h
            exact ⟨.apiError, h.symm⟩
          · simp [h429, h400] at h

/-- The loop around the request body stops after the first attempt: whatever the
attempt produced, no error matching the tenacity retry predicate can arise, so no
re-attempt ever happens. -/
theorem make_api_request_calls_le_one (ci : Bool) (now : Int)
    (outcomes : List AttemptOutcome) (cb : CircuitBreaker) :
    (make_api_request ci now outcomes cb).networkCalls ≤ 1 := by
  unfold make_api_request
  rw [requestLoop]
  rcases hA : requestAttempt ci (outcomes.headD .otherExc) now cb with ⟨r, cb', used⟩
  cases r with
  | ok v => cases used <;> simp
  | error e =>
    obtain ⟨k, rfl⟩ := requestAttempt_error_kind ci _ now cb e (by rw [hA])
    cases used <;> simp [tenacityShouldRetry]

/-- C1: the claimed retry behaviour does not hold in the code.  The tenacity
decorator of `_make_api_request` retries only `httpx.TimeoutException` and
`httpx.NetworkError`, but the function body converts exactly those exceptions
into `AITimeoutError` / `AIServiceUnavailableError` before they can reach the
decorator, so no failure of any kind is ever re-attempted: every send makes at
most one network call, and a send whose single attempt times out (or hits a
network error) surfaces the error immediately — even when a subsequent attempt
would have succeeded, contradicting the claimed bound of 3 attempts and the
repository test that expects three `post` calls. -/
theorem claim_C1_no_retry_ever_happens :
    (∀ (ci : Bool) (now : Int) (outcomes : List AttemptOutcome) (cb : CircuitBreaker),
      (make_api_request ci now outcomes cb).networkCalls ≤ 1) ∧
    make_api_request true 0 [.timeoutExc, .response 200 (some [])]
        (mkCircuitBreaker 5 60) =
      ⟨.error (.ai .timeout), ⟨5, 60, 1, .closed, some 0⟩, 1⟩ ∧
    make_api_request true 0 [.networkExc, .response 200 (some [])]
        (mkCircuitBreaker 5 60) =
      ⟨.error (.ai .serviceUnavailable), ⟨5, 60, 1, .closed, some 0⟩, 1⟩ := by
  exact ⟨make_api_request_calls_le_one, by decide, by decide⟩

/-- C2: the claimed 429 behaviour does not hold in the code.  On a 429 response
the body records a failure and raises `AIRateLimitError` inside its own `try:`
suite, where the trailing `except Exception` clause catches it, records a second
failure, and re-raises a generic `AIAPIError`.  Evaluated on a fresh breaker:
the caller receives `AIAPIError` (not `AIRateLimitError`), the call is indeed
not retried (one network call), and `failure_count` rises by 2, not by 1. -/
theorem claim_C2_429_surfaces_apiError_and_double_counts :
    make_api_request true 0 [.response 429 none, .response 200 (some [])]
        (mkCircuitBreaker 5 60) =
      ⟨.error (.ai .apiError), ⟨5, 60, 2, .closed, some 0⟩, 1⟩ ∧
    (make_api_request true 0 [.response 429 none, .response 200 (some [])]
        (mkCircuitBreaker 5 60)).result ≠ .error (.ai .rateLimit) ∧
    (make_api_request true 0 [.response 429 none, .response 200 (some [])]
        (mkCircuitBreaker 5 60)).breaker.failure_count ≠ 1 := by
  refine ⟨by decide, by decide, by decide⟩

/-- Unfolded form of `record_failure` as a single record update. -/
theorem record_failure_def (cb : CircuitBreaker) (t : Int) :
    cb.record_failure t =
      { cb with
        failure_count := cb.failure_count + 1
        last_failure_time := some t
        state := if cb.failure_count + 1 ≥ cb.failure_threshold then .opened
          else cb.state } := by
  by_cases h : cb.failure_count + 1 ≥ cb.failure_threshold <;>
    simp [CircuitBreaker.record_failure, h]

/-- Effect of `n` consecutive `record_failure` calls on a fresh breaker:
the count equals the number of calls, the configuration is unchanged, the last
failure time is the last timestamp, and the state is CLOSED below the threshold
and OPEN at or above it. -/
theorem recordFailures_spec (th tmo : Nat) (hth : 1 ≤ th) (ts : List Int) :
    (recordFailures (mkCircuitBreaker th tmo) ts).failure_threshold = th ∧
    (recordFailures (mkCircuitBreaker th tmo) ts).timeout_seconds = tmo ∧
    (recordFailures (mkCircuitBreaker th tmo) ts).failure_count = ts.length ∧
    (recordFailures (mkCircuitBreaker th tmo) ts).last_failure_time = ts.getLast? ∧
    (ts.length < th → (recordFailures (mkCircuitBreaker th tmo) ts).state = .closed) ∧
    (th ≤ ts.length → (recordFailures (mkCircuitBreaker th tmo) ts).state = .opened) := by
  induction ts using List.reverseRecOn with
  | nil =>
    refine ⟨rfl, rfl, rfl, rfl, fun _ => rfl, fun h => absurd (lt_of_lt_of_le
      (Nat.lt_of_lt_of_le Nat.zero_lt_one hth) h) (lt_irrefl _)⟩
  | append_singleton ts t ih =>
    obtain ⟨ih1, ih2, ih3, ih4, ih5, ih6⟩ := ih
    have hfold : recordFailures (mkCircuitBreaker th tmo) (ts ++ [t]) =
        (recordFailures (mkCircuitBreaker th tmo) ts).record_failure t := by
      simp [recordFailures, List.foldl_append]
    rw [hfold, record_failure_def, ih1, ih3]
    refine ⟨rfl, ih2, by simp, by simp, fun hlt => ?_, fun hge => ?_⟩
    · have : ¬ (ts.length + 1 ≥ th) := by simp at hlt ⊢; omega
      simp only [this, if_false]
      exact ih5 (by simp at hlt; omega)
    · have : ts.length + 1 ≥ th := by simp at hge; omega
      simp [this]

/-- When the circuit breaker gate refuses the attempt, `_make_api_request` fails
fast with `AIServiceUnavailableError` and makes no network call. -/
theorem make_api_request_gate_closed (ci : Bool) (now : Int)
    (outcomes : List AttemptOutcome) (cb : CircuitBreaker)
    (h : (cb.can_attempt_request now).1 = false) :
    make_api_request ci now outcomes cb =
      ⟨.error (.ai .serviceUnavailable), (cb.can_attempt_request now).2, 0⟩ := by
  unfold make_api_request
  rw [requestLoop]
  have hA : requestAttempt ci (outcomes.headD .otherExc) now cb =
      (.error (.ai .serviceUnavailable), (cb.can_attempt_request now).2, false) := by
    simp [requestAttempt, h]
  rw [hA]
  simp [tenacityShouldRetry]

/-- C4: starting from a fresh breaker with threshold `th >= 1` (default 5),
after exactly `th` consecutive `record_failure` calls and with the recovery
timeout not yet elapsed since the last of them, `can_attempt_request` returns
false and a subsequent send fails fast with `AIServiceUnavailableError` without
any network attempt; after fewer than `th` consecutive `record_failure` calls,
`can_attempt_request` returns true (at any time). -/
theorem claim_C4_threshold_gates_requests (th tmo : Nat) (hth : 1 ≤ th)
    (ts : List Int) (now tl : Int) :
    (ts.length = th → ts.getLast? = some tl → now - tl < (tmo : Int) →
      ((recordFailures (mkCircuitBreaker th tmo) ts).can_attempt_request now).1 = false ∧
      ∀ (ci : Bool) (outcomes : List AttemptOutcome),
        (make_api_request ci now outcomes
            (recordFailures (mkCircuitBreaker th tmo) ts)).result =
          .error (.ai .serviceUnavailable) ∧
        (make_api_request ci now outcomes
            (recordFailures (mkCircuitBreaker th tmo) ts)).networkCalls = 0) ∧
    (ts.length < th →
      ∀ now', ((recordFailures (mkCircuitBreaker th tmo) ts).can_attempt_request now').1
        = true) := by
  obtain ⟨h1, h2, h3, h4, h5, h6⟩ := recordFailures_spec th tmo hth ts
  constructor
  · intro hlen hlast htime
    have hst : (recordFailures (mkCircuitBreaker th tmo) ts).state = .opened :=
      h6 (le_of_eq hlen.symm)
    have hgate : ((recordFailures (mkCircuitBreaker th tmo) ts).can_attempt_request now).1
        = false := by
      unfold CircuitBreaker.can_attempt_request
      rw [hst, h4, hlast, h2]
      simp [not_le.mpr htime]
    refine ⟨hgate, fun ci outcomes => ?_⟩
    rw [make_api_request_gate_closed ci now outcomes _ hgate]
    exact ⟨rfl, rfl⟩
  · intro hlen now'
    have hst : (recordFailures (mkCircuitBreaker th tmo) ts).state = .closed := h5 hlen
    unfold CircuitBreaker.can_attempt_request
    rw [hst]

/-- C4 witness: five failures at times 0..4 on the default configuration block
the gate at time 30 and make a sixth send fail fast with no network call; two
failures leave the gate passing. -/
theorem claim_C4_threshold_gates_requests_witness :
    ((recordFailures (mkCircuitBreaker 5 60) [0, 1, 2, 3, 4]).can_attempt_request 30).1
      = false ∧
    (make_api_request true 30 [.response 200 (some [])]
        (recordFailures (mkCircuitBreaker 5 60) [0, 1, 2, 3, 4])).result =
      .error (.ai .serviceUnavailable) ∧
    (make_api_request true 30 [.response 200 (some [])]
        (recordFailures (mkCircuitBreaker 5 60) [0, 1, 2, 3, 4])).networkCalls = 0 ∧
    ((recordFailures (mkCircuitBreaker 5 60) [0, 1]).can_attempt_request 30).1 = true := by
  have h := claim_C4_threshold_gates_requests 5 60 (by decide) [0, 1, 2, 3, 4] 30 4
  have h2 := claim_C4_threshold_gates_requests 5 60 (by decide) [0, 1] 30 4
  refine ⟨(h.1 (by decide) (by decide) (by decide)).1,
    ((h.1 (by decide) (by decide) (by decide)).2 true [.response 200 (some [])]).1,
    ((h.1 (by decide) (by decide) (by decide)).2 true [.response 200 (some [])]).2,
    h2.2 (by decide) 30⟩

/-- One operation step leaves the breaker configuration untouched. -/
theorem cbStep_preserves (cb : CircuitBreaker) (p : CBOp × Int) :
    (cbStep cb p).failure_threshold = cb.failure_threshold ∧
    (cbStep cb p).timeout_seconds = cb.timeout_seconds := by
  rcases p with ⟨op, t⟩
  cases op with
  | recordSuccess => exact ⟨rfl, rfl⟩
  | recordFailure => rw [cbStep, record_failure_def]; exact ⟨rfl, rfl⟩
  | canAttempt =>
    obtain ⟨th, tmo, fc, st, lft⟩ := cb
    rw [cbStep]
    unfold CircuitBreaker.can_attempt_request
    cases st <;> simp
    cases lft with
    | none => simp
    | some u => by_cases h : t - u ≥ (tmo : Int) <;> simp [h]

/-- The breaker invariant is preserved by any single operation executed at a
later (or equal) time. -/
theorem cbInv_step (cb : CircuitBreaker) (now now' : Int) (op : CBOp)
    (hth : 1 ≤ cb.failure_threshold) (hto : 1 ≤ cb.timeout_seconds)
    (hmono : now ≤ now') (hinv : cbInv cb now) :
    cbInv (cbStep cb (op, now')) now' := by
  obtain ⟨th, tmo, fc, st, lft⟩ := cb
  obtain ⟨hC, hO, hH⟩ := hinv
  simp only at hth hto
  cases op with
  | recordSuccess =>
    simp only [cbStep, CircuitBreaker.record_success]
    simp [cbInv]
    omega
  | recordFailure =>
    simp only [cbStep, record_failure_def]
    by_cases hcnt : fc + 1 ≥ th
    · simp only [hcnt, if_true]
      simp [cbInv, recentFailure]
      omega
    · simp only [hcnt, if_false]
      cases st with
      | closed =>
        simp [cbInv, recentFailure] at hC ⊢
        omega
      | opened =>
        simp [cbInv, recentFailure] at hO ⊢
        omega
      | halfOpen =>
        simp [cbInv, recentFailure] at hH ⊢
        omega
  | canAttempt =>
    simp only [cbStep, CircuitBreaker.can_attempt_request]
    cases st with
    | closed =>
      simp [cbInv] at hC ⊢
      omega
    | opened =>
      simp [cbInv] at hO
      cases lft with
      | none => simp [recentFailure] at hO
      | some t =>
        simp [recentFailure] at hO
        by_cases helap : now' - t ≥ (tmo : Int)
        · simp only [helap, if_true]
          simp [cbInv, recentFailure]
          omega
        · simp only [helap, if_false]
          simp [cbInv, recentFailure]
          omega
    | halfOpen =>
      simp [cbInv] at hH
      cases lft with
      | none => simp at hH
      | some t =>
        simp [recentFailure] at hH
        simp [cbInv, recentFailure]
        omega

/-- The breaker invariant holds after any trace of operations with
non-decreasing timestamps, evaluated at the time of the last operation. -/
theorem cbInv_run (cb : CircuitBreaker) (t0 : Int) (ops : List (CBOp × Int))
    (hth : 1 ≤ cb.failure_threshold) (hto : 1 ≤ cb.timeout_seconds)
    (hchain : List.Chain (· ≤ ·) t0 (ops.map Prod.snd)) (hinv : cbInv cb t0) :
    cbInv (runOps cb ops) ((ops.map Prod.snd).getLastD t0) := by
  induction ops generalizing cb t0 with
  | nil => exact hinv
  | cons p rest ih =>
    rcases p with ⟨op, t⟩
    have hchain' := List.chain_cons.mp hchain
    have hstep := cbInv_step cb t0 t op hth hto hchain'.1 hinv
    have hpres := cbStep_preserves cb (op, t)
    have hrun : runOps cb ((op, t) :: rest) = runOps (cbStep cb (op, t)) rest := rfl
    have hlast : (((op, t) :: rest).map Prod.snd).getLastD t0 =
        (rest.map Prod.snd).getLastD t := by
      show (t :: rest.map Prod.snd).getLastD t0 = (rest.map Prod.snd).getLastD t
      cases hr : rest.map Prod.snd with
      | nil => rfl
      | cons b l => simp [List.getLastD]
    rw [hrun, hlast]
    exact ih (cbStep cb (op, t)) t (hpres.1 ▸ hth) (hpres.2 ▸ hto) hchain'.2 hstep

/-- Running a trace leaves the breaker configuration untouched. -/
theorem runOps_preserves (cb : CircuitBreaker) (ops : List (CBOp × Int)) :
    (runOps cb ops).failure_threshold = cb.failure_threshold ∧
    (runOps cb ops).timeout_seconds = cb.timeout_seconds := by
  induction ops generalizing cb with
  | nil => exact ⟨rfl, rfl⟩
  | cons p rest ih =>
    have h2 := cbStep_preserves cb p
    have h1 := ih (cbStep cb p)
    refine ⟨?_, ?_⟩
    · show (runOps (cbStep cb p) rest).failure_threshold = _
      rw [h1.1, h2.1]
    · show (runOps (cbStep cb p) rest).timeout_seconds = _
      rw [h1.2, h2.2]

/-- C5: for every sequence of `record_success`, `record_failure` and
`can_attempt_request` operations with non-decreasing timestamps, starting from a
fresh breaker with threshold and timeout at least 1 (defaults 5 and 60), the
stored state equals OPEN iff `failure_count >= failure_threshold` and less than
`timeout_seconds` has elapsed since `last_failure_time` (evaluated at the time
of the last operation); and `record_success` unconditionally resets
`failure_count` to 0 and the state to CLOSED regardless of the prior state. -/
theorem claim_C5_state_invariant (th tmo : Nat) (hth : 1 ≤ th) (hto : 1 ≤ tmo)
    (ops : List (CBOp × Int)) (t0 : Int)
    (hchain : List.Chain (· ≤ ·) t0 (ops.map Prod.snd)) :
    ((runOps (mkCircuitBreaker th tmo) ops).state = .opened ↔
      th ≤ (runOps (mkCircuitBreaker th tmo) ops).failure_count ∧
      recentFailure (runOps (mkCircuitBreaker th tmo) ops)
        ((ops.map Prod.snd).getLastD t0) = true) ∧
    (∀ cb : CircuitBreaker, cb.record_success.failure_count = 0 ∧
      cb.record_success.state = .closed) := by
  have hinv0 : cbInv (mkCircuitBreaker th tmo) t0 := by
    simp [cbInv, mkCircuitBreaker]
    omega
  have hfin := cbInv_run (mkCircuitBreaker th tmo) t0 ops hth hto hchain hinv0
  have hthr : (runOps (mkCircuitBreaker th tmo) ops).failure_threshold = th :=
    (runOps_preserves (mkCircuitBreaker th tmo) ops).1
  constructor
  · constructor
    · intro h
      have := hfin.2.1 h
      rw [hthr] at this
      exact this
    · rintro ⟨hcnt, hrec⟩
      rcases hst : (runOps (mkCircuitBreaker th tmo) ops).state with _ | _ | _
      · have := hfin.1 hst
        rw [hthr] at this
        omega
      · rfl
      · have := (hfin.2.2 hst).2.2
        rw [hrec] at this
        cases this
  · intro cb
    exact ⟨rfl, rfl⟩

/-- C5 witness: five failures at time 0 followed by a probe at time 10 on the
default configuration leave the breaker OPEN (via the invariant), and a concrete
HALF_OPEN breaker is reset by `record_success`. -/
theorem claim_C5_state_invariant_witness :
    (runOps (mkCircuitBreaker 5 60)
      [(.recordFailure, 0), (.recordFailure, 0), (.recordFailure, 0),
        (.recordFailure, 0), (.recordFailure, 0), (.canAttempt, 10)]).state = .opened ∧
    (⟨5, 60, 3, .halfOpen, some 0⟩ : CircuitBreaker).record_success.failure_count = 0 := by
  have hch : List.Chain (· ≤ ·) (0 : Int)
      ([(CBOp.recordFailure, (0 : Int)), (.recordFailure, 0), (.recordFailure, 0),
        (.recordFailure, 0), (.recordFailure, 0), (.canAttempt, 10)].map Prod.snd) := by
    simp [List.chain_cons]
  have h := claim_C5_state_invariant 5 60 (by decide) (by decide)
    [(.recordFailure, 0), (.recordFailure, 0), (.recordFailure, 0),
      (.recordFailure, 0), (.recordFailure, 0), (.canAttempt, 10)] 0 hch
  exact ⟨h.1.mpr (by decide), (h.2 ⟨5, 60, 3, .halfOpen, some 0⟩).1⟩

/-- C7: `analyze_job_description` rejects empty or whitespace-only input, input
shorter than 50 characters after trimming, and input longer than 10000
characters, each with a distinct `JobDescriptionInvalidError` raised locally
before any network activity — the circuit breaker is returned untouched and zero
network calls are made, whatever the client, oracle or parser; moreover a
49-character description is rejected as too short while the same text padded to
exactly 50 characters proceeds past validation. -/
theorem claim_C7_local_validation (s : List Char) :
    (∀ {α β : Type} (jparse : List Char → Option α) (mapJob : α → Option β)
      (ci : Bool) (now : Int) (outcomes : List AttemptOutcome) (cb : CircuitBreaker),
      (pyStrip s = [] →
        analyze_job_description jparse mapJob ci now outcomes cb s =
          (.error (.invalidInput .emptyDesc), cb, 0)) ∧
      (pyStrip s ≠ [] → (pyStrip s).length < MIN_JOB_DESCRIPTION_LENGTH →
        analyze_job_description jparse mapJob ci now outcomes cb s =
          (.error (.invalidInput .tooShort), cb, 0)) ∧
      ((pyStrip s).length > MAX_JOB_DESCRIPTION_LENGTH →
        analyze_job_description jparse mapJob ci now outcomes cb s =
          (.error (.invalidInput .tooLong), cb, 0))) ∧
    validate_job_description (List.replicate 49 'a') = .error .tooShort ∧
    validate_job_description (List.replicate 49 'a' ++ ['b']) =
      .ok (List.replicate 49 'a' ++ ['b']) := by
  refine ⟨fun {α β} jparse mapJob ci now outcomes cb => ⟨?_, ?_, ?_⟩, by decide, by decide⟩
  · intro h
    have hval : validate_job_description s = .error .emptyDesc := by
      simp [validate_job_description, h]
    simp [analyze_job_description, hval]
  · intro h1 h2
    have hsne : s.isEmpty = false := by
      rcases hs : s.isEmpty with _ | _
      · rfl
      · exact absurd (by rw [List.isEmpty_iff.mp hs]; rfl) h1
    have hpne : (pyStrip s).isEmpty = false := by
      rcases hp : (pyStrip s).isEmpty with _ | _
      · rfl
      · exact absurd (List.isEmpty_iff.mp hp) h1
    have hval : validate_job_description s = .error .tooShort := by
      simp [validate_job_description, hsne, hpne, h2]
    simp [analyze_job_description, hval]
  · intro h
    have h1 : pyStrip s ≠ [] := by
      intro hp
      rw [hp] at h
      simp [MAX_JOB_DESCRIPTION_LENGTH] at h
    have hsne : s.isEmpty = false := by
      rcases hs : s.isEmpty with _ | _
      · rfl
      · exact absurd (by rw [List.isEmpty_iff.mp hs]; rfl) h1
    have hpne : (pyStrip s).isEmpty = false := by
      rcases hp : (pyStrip s).isEmpty with _ | _
      · rfl
      · exact absurd (List.isEmpty_iff.mp hp) h1
    have hnlt : ¬ ((pyStrip s).length < MIN_JOB_DESCRIPTION_LENGTH) := by
      simp [MIN_JOB_DESCRIPTION_LENGTH]
      simp [MAX_JOB_DESCRIPTION_LENGTH] at h
      omega
    have hval : validate_job_description s = .error .tooLong := by
      simp [validate_job_description, hsne, hpne, hnlt, h]
    simp [analyze_job_description, hval]

/-- C7 witness: a whitespace-only input is rejected as empty with the breaker
untouched and no network call made. -/
theorem claim_C7_local_validation_witness :
    analyze_job_description (fun _ => (none : Option Unit))
        (fun _ => (none : Option Unit)) true 0 [] (mkCircuitBreaker 5 60) " ".toList =
      (.error (.invalidInput .emptyDesc), mkCircuitBreaker 5 60, 0) :=
  (((claim_C7_local_validation " ".toList).1 (fun _ => (none : Option Unit))
    (fun _ => (none : Option Unit)) true 0 [] (mkCircuitBreaker 5 60)).1 (by decide))

/-- C3 counterexample: the claim fails for `InvalidResponse`.  On a run in which
the backend answers 200 with a payload that is not JSON, an
`AIInvalidResponseError` arises after validation, but the caller receives
`JobParsingError` — the error does not propagate unchanged, because
`AIInvalidResponseError` is missing from the re-raise tuple of
`analyze_job_description` and falls into the trailing `except Exception`. -/
theorem claim_C3_counterexample :
    (analyze_job_description (fun _ => (none : Option Unit))
        (fun _ => (none : Option Unit)) true 0
        [.response 200 (some "not json".toList)] (mkCircuitBreaker 5 60)
        (List.replicate 50 'a')).1 = .error .jobParsing ∧
    (analyze_job_description (fun _ => (none : Option Unit))
        (fun _ => (none : Option Unit)) true 0
        [.response 200 (some "not json".toList)] (mkCircuitBreaker 5 60)
        (List.replicate 50 'a')).1 ≠ .error (.ai .invalidResponse) := by
  exact ⟨by decide, by decide⟩

/-- C3 (amended): for every invocation of `analyze_job_description` passing
validation, the errors `ServiceUnavailable`, `APIError`, `RateLimited` and
`Timeout` arising from the send propagate to the caller unchanged, while an
`InvalidResponse` arising from envelope checking or JSON extraction — like any
other unexpected failure during mapping — is wrapped into `JobParsingError`,
preserving the original cause. -/
theorem claim_C3_amended_propagation {α β : Type} (jparse : List Char → Option α)
    (mapJob : α → Option β) (ci : Bool) (now : Int) (outcomes : List AttemptOutcome)
    (cb : CircuitBreaker) (desc t : List Char)
    (hval : validate_job_description desc = .ok t) :
    (∀ k, (k = AIErrorKind.serviceUnavailable ∨ k = .apiError ∨ k = .rateLimit ∨
        k = .timeout) →
      (make_api_request ci now outcomes cb).result = .error (.ai k) →
      (analyze_job_description jparse mapJob ci now outcomes cb desc).1 =
        .error (.ai k)) ∧
    ((make_api_request ci now outcomes cb).result = .ok none →
      (analyze_job_description jparse mapJob ci now outcomes cb desc).1 =
        .error .jobParsing) ∧
    (∀ content, (make_api_request ci now outcomes cb).result = .ok (some content) →
      jparse (selectJsonCandidate content) = none →
      (analyze_job_description jparse mapJob ci now outcomes cb desc).1 =
        .error .jobParsing) ∧
    (∀ content v, (make_api_request ci now outcomes cb).result = .ok (some content) →
      jparse (selectJsonCandidate content) = some v → mapJob v = none →
      (analyze_job_description jparse mapJob ci now outcomes cb desc).1 =
        .error .jobParsing) := by
  refine ⟨fun k hk hr => ?_, fun hr => ?_, fun content hr hp => ?_,
    fun content v hr hp hm => ?_⟩
  · simp only [analyze_job_description, hval, hr]
    rcases hk with rfl | rfl | rfl | rfl <;> rfl
  · simp only [analyze_job_description, hval, hr]
    rfl
  · simp only [analyze_job_description, hval, hr, extract_json_from_response, hp]
    rfl
  · simp only [analyze_job_description, hval, hr, extract_json_from_response, hp, hm]
    rfl

/-- C3 amended witness: a timed-out send under a 50-character valid description
surfaces `AITimeoutError` unchanged from `analyze_job_description`. -/
theorem claim_C3_amended_propagation_witness :
    (analyze_job_description (fun _ => (none : Option Unit))
        (fun _ => (none : Option Unit)) true 0 [.timeoutExc] (mkCircuitBreaker 5 60)
        (List.replicate 50 'a')).1 = .error (.ai .timeout) :=
  (claim_C3_amended_propagation (fun _ => (none : Option Unit))
    (fun _ => (none : Option Unit)) true 0 [.timeoutExc] (mkCircuitBreaker 5 60)
    (List.replicate 50 'a') (List.replicate 50 'a') (by decide)).1
    .timeout (by decide) (by decide)

/-- A found index is an occurrence. -/
theorem findSubstrFrom_some_occurs (pat : List Char) :
    ∀ (s : List Char) (i : Nat), findSubstrFrom pat s = some i → occursAt pat s i := by
  intro s
  induction s with
  | nil =>
    intro i h
    rw [findSubstrFrom] at h
    by_cases hp : pat.isPrefixOf ([] : List Char) = true
    · rw [if_pos hp] at h
      cases h
      exact hp
    · rw [if_neg hp] at h
      cases h
  | cons c rest ih =>
    intro i h
    rw [findSubstrFrom] at h
    by_cases hp : pat.isPrefixOf (c :: rest) = true
    · rw [if_pos hp] at h
      cases h
      exact hp
    · rw [if_neg hp] at h
      rcases hfind : findSubstrFrom pat rest with _ | j
      · rw [hfind] at h
        cases h
      · rw [hfind] at h
        cases h
        exact ih j hfind

/-- A found index is the least occurrence. -/
theorem findSubstrFrom_some_least (pat : List Char) :
    ∀ (s : List Char) (i : Nat), findSubstrFrom pat s = some i →
      ∀ k, k < i → ¬ occursAt pat s k := by
  intro s
  induction s with
  | nil =>
    intro i h k hk
    rw [findSubstrFrom] at h
    by_cases hp : pat.isPrefixOf ([] : List Char) = true
    · rw [if_pos hp] at h
      cases h
      omega
    · rw [if_neg hp] at h
      cases h
  | cons c rest ih =>
    intro i h k hk
    rw [findSubstrFrom] at h
    by_cases hp : pat.isPrefixOf (c :: rest) = true
    · rw [if_pos hp] at h
      cases h
      omega
    · rw [if_neg hp] at h
      rcases hfind : findSubstrFrom pat rest with _ | j
      · rw [hfind] at h
        cases h
      · rw [hfind] at h
        cases h
        cases k with
        | zero => exact hp
        | succ m =>
          simp only [Option.map_some] at hk
          exact ih j hfind m (by omega)

/-- When the scan fails there is no occurrence at all. -/
theorem findSubstrFrom_none (pat : List Char) :
    ∀ (s : List Char), findSubstrFrom pat s = none → ∀ k, ¬ occursAt pat s k := by
  intro s
  induction s with
  | nil =>
    intro h k
    rw [findSubstrFrom] at h
    by_cases hp : pat.isPrefixOf ([] : List Char) = true
    · rw [if_pos hp] at h
      cases h
    · rw [if_neg hp] at h
      intro hc
      exact hp (by simpa [occursAt, List.drop_nil] using hc)
  | cons c rest ih =>
    intro h k
    rw [findSubstrFrom] at h
    by_cases hp : pat.isPrefixOf (c :: rest) = true
    · rw [if_pos hp] at h
      cases h
    · rw [if_neg hp] at h
      rcases hfind : findSubstrFrom pat rest with _ | j
      · cases k with
        | zero => exact hp
        | succ m => exact ih hfind m
      · rw [hfind] at h
        cases h

/-- An occurrence forces the scan to succeed. -/
theorem findSubstrFrom_isSome_of_occurs (pat s : List Char) (k : Nat)
    (h : occursAt pat s k) : ∃ i, findSubstrFrom pat s = some i := by
  rcases hfind : findSubstrFrom pat s with _ | i
  · exact absurd h (findSubstrFrom_none pat s hfind k)
  · exact ⟨i, rfl⟩

/-- When a fenced block is present, `extractFenced` returns the interior of the
first one: the opening delimiter occurrence is the leftmost, and the closing
delimiter occurrence is the first one after it (the lazy group). -/
theorem extractFenced_spec (s : List Char) (h : hasFencedBlock s) :
    ∃ i j, occursAt fenceOpen s i ∧ (∀ k, k < i → ¬ occursAt fenceOpen s k) ∧
      occursAt fenceClose s (i + fenceOpen.length + j) ∧
      (∀ q, q < j → ¬ occursAt fenceClose s (i + fenceOpen.length + q)) ∧
      extractFenced s = some ((s.drop (i + fenceOpen.length)).take j) := by
  obtain ⟨k, q, hk, hq, hkq⟩ := h
  obtain ⟨i, hi⟩ := findSubstrFrom_isSome_of_occurs fenceOpen s k hk
  have hiocc := findSubstrFrom_some_occurs fenceOpen s i hi
  have hileast := findSubstrFrom_some_least fenceOpen s i hi
  have hik : i ≤ k := by
    by_contra hc
    exact hileast k (by omega) hk
  have hqrest : occursAt fenceClose (s.drop (i + fenceOpen.length))
      (q - (i + fenceOpen.length)) := by
    unfold occursAt at hq ⊢
    rw [List.drop_drop]
    have heq : i + fenceOpen.length + (q - (i + fenceOpen.length)) = q := by omega
    rw [heq]
    exact hq
  obtain ⟨j, hj⟩ := findSubstrFrom_isSome_of_occurs fenceClose _ _ hqrest
  have hjocc := findSubstrFrom_some_occurs fenceClose _ j hj
  have hjleast := findSubstrFrom_some_least fenceClose _ j hj
  refine ⟨i, j, hiocc, fun k' hk' => hileast k' hk', ?_, ?_, ?_⟩
  · unfold occursAt at hjocc ⊢
    rw [List.drop_drop] at hjocc
    exact hjocc
  · intro q' hq' hocc
    apply hjleast q' hq'
    unfold occursAt at hocc ⊢
    rw [List.drop_drop]
    exact hocc
  · simp only [extractFenced, hi, hj]

/-- A successful fenced extraction certifies a fenced block. -/
theorem hasFencedBlock_of_extractFenced (s v : List Char)
    (h : extractFenced s = some v) : hasFencedBlock s := by
  rcases hi : findSubstrFrom fenceOpen s with _ | i
  · simp only [extractFenced, hi] at h
    cases h
  · rcases hj : findSubstrFrom fenceClose (s.drop (i + fenceOpen.length)) with _ | j
    · simp only [extractFenced, hi, hj] at h
      cases h
    · refine ⟨i, i + fenceOpen.length + j, findSubstrFrom_some_occurs _ _ _ hi, ?_,
        by omega⟩
      have hjocc := findSubstrFrom_some_occurs _ _ _ hj
      unfold occursAt at hjocc ⊢
      rw [List.drop_drop] at hjocc
      exact hjocc

/-- Without a fenced block, fenced extraction fails. -/
theorem extractFenced_eq_none (s : List Char) (h : ¬ hasFencedBlock s) :
    extractFenced s = none := by
  rcases hf : extractFenced s with _ | v
  · rfl
  · exact absurd (hasFencedBlock_of_extractFenced s v hf) h

/-- An occurrence of a one-character pattern is exactly a character at that
index. -/
theorem occursAt_singleton (c : Char) (s : List Char) (i : Nat) :
    occursAt [c] s i ↔ s[i]? = some c := by
  unfold occursAt
  rw [← List.head?_drop]
  cases hd : s.drop i with
  | nil => exact ⟨fun h => Bool.noConfusion h, fun h => Option.noConfusion h⟩
  | cons x xs =>
    rw [List.isPrefixOf_cons₂]
    simp only [List.isPrefixOf_nil_left, Bool.and_true, beq_iff_eq, List.head?_cons,
      Option.some.injEq]
    exact eq_comm

/-- The first occurrence of `c` in the reversed text locates the last occurrence
of `c` in the text: the character is there, the index is in range, and no later
index holds `c`. -/
theorem lastOccurrence_spec (c : Char) (s : List Char) (k : Nat)
    (hk : findSubstrFrom [c] s.reverse = some k) :
    k < s.length ∧ s[s.length - 1 - k]? = some c ∧
      ∀ q, s.length - 1 - k < q → s[q]? ≠ some c := by
  have h1 : s.reverse[k]? = some c :=
    (occursAt_singleton c s.reverse k).mp (findSubstrFrom_some_occurs _ _ _ hk)
  have hleast := findSubstrFrom_some_least [c] s.reverse k hk
  have hklen : k < s.length := by
    by_contra hc
    rw [List.getElem?_eq_none (by simpa using Nat.le_of_not_lt hc)] at h1
    cases h1
  have h2 : s[s.length - 1 - k]? = some c := by
    rw [List.getElem?_reverse (by simpa using hklen)] at h1
    simpa using h1
  refine ⟨hklen, h2, fun q hq hcq => ?_⟩
  by_cases hqlen : q < s.length
  · have hrev : s.reverse[s.length - 1 - q]? = some c := by
      rw [List.getElem?_reverse (by simpa using (by omega : s.length - 1 - q < s.length))]
      simpa [(by omega : s.length - 1 - (s.length - 1 - q) = q)] using hcq
    exact hleast (s.length - 1 - q) (by omega)
      ((occursAt_singleton c s.reverse (s.length - 1 - q)).mpr hrev)
  · rw [List.getElem?_eq_none (by omega)] at hcq
    cases hcq

/-- An index holding a value is in range. -/
theorem getElem?_some_lt {s : List Char} {q : Nat} {c : Char} (h : s[q]? = some c) :
    q < s.length := by
  by_contra hc
  rw [List.getElem?_eq_none (by omega)] at h
  cases h

/-- A character of the text, seen from the reversed text. -/
theorem reverse_getElem?_of {s : List Char} {q : Nat} {c : Char} (h : s[q]? = some c) :
    s.reverse[s.length - 1 - q]? = some c := by
  have hq := getElem?_some_lt h
  rw [List.getElem?_reverse (by omega)]
  have heq : s.length - 1 - (s.length - 1 - q) = q := by omega
  rw [heq]
  exact h

/-- A brace-delimited substring has at least the two braces. -/
theorem braceDelimited_length (u s : List Char) (h : braceDelimited u s) :
    2 ≤ u.length := by
  obtain ⟨h1, h2, _⟩ := h
  rcases u with _ | ⟨x, _ | ⟨y, rest⟩⟩
  · cases h1
  · simp at h1 h2
    exact absurd (h1.symm.trans h2) (by decide)
  · simp

/-- A brace-delimited substring yields an opening brace and, at distance its
length minus one, a closing brace, inside the bounds of the text. -/
theorem braceDelimited_positions (u s : List Char) (h : braceDelimited u s) :
    ∃ p, p + u.length ≤ s.length ∧ s[p]? = some openBrace ∧
      s[p + (u.length - 1)]? = some closeBrace := by
  have hlen := braceDelimited_length u s h
  obtain ⟨hh, hl, hinf⟩ := h
  obtain ⟨pre, suf, hs⟩ := hinf
  subst hs
  refine ⟨pre.length, by simp [List.length_append], ?_, ?_⟩
  · rw [List.append_assoc, List.getElem?_append_right (le_refl pre.length)]
    rw [Nat.sub_self]
    rw [List.getElem?_append_left (by omega)]
    rw [← List.head?_eq_getElem?]
    exact hh
  · rw [List.append_assoc, List.getElem?_append_right (by omega)]
    have heq : pre.length + (u.length - 1) - pre.length = u.length - 1 := by omega
    rw [heq]
    rw [List.getElem?_append_left (by omega)]
    rw [← List.getLast?_eq_getElem?]
    exact hl

/-- The span from an opening brace at `i` to a closing brace at a later `j` is a
brace-delimited substring of the text, of length `j - i + 1`. -/
theorem braceDelimited_of_span (s : List Char) (i j : Nat) (hij : i < j)
    (hjl : j < s.length) (hi : s[i]? = some openBrace)
    (hj : s[j]? = some closeBrace) :
    braceDelimited ((s.drop i).take (j - i + 1)) s ∧
      ((s.drop i).take (j - i + 1)).length = j - i + 1 := by
  have hblen : ((s.drop i).take (j - i + 1)).length = j - i + 1 := by
    simp [List.length_take, List.length_drop]
    omega
  refine ⟨⟨?_, ?_, ?_⟩, hblen⟩
  · rw [List.head?_eq_getElem?]
    rw [List.getElem?_take_of_lt (by omega)]
    rw [List.getElem?_drop]
    simpa using hi
  · rw [List.getLast?_eq_getElem?, hblen]
    have heq : j - i + 1 - 1 = j - i := by omega
    rw [heq]
    rw [List.getElem?_take_of_lt (by omega)]
    rw [List.getElem?_drop]
    have heq2 : i + (j - i) = j := by omega
    rw [heq2]
    exact hj
  · exact ((List.take_prefix _ _).isInfix).trans ((List.drop_suffix _ _).isInfix)

/-- When a brace-delimited substring exists, `extractBraced` returns one, and it
is a longest one: the greedy span from the first opening brace to the last
closing brace. -/
theorem extractBraced_spec (s : List Char) (h : ∃ u, braceDelimited u s) :
    ∃ b, extractBraced s = some b ∧ braceDelimited b s ∧
      ∀ u, braceDelimited u s → u.length ≤ b.length := by
  obtain ⟨u, hu⟩ := h
  have hulen := braceDelimited_length u s hu
  obtain ⟨p, hps, hpo, hpc⟩ := braceDelimited_positions u s hu
  obtain ⟨i, hi⟩ := findSubstrFrom_isSome_of_occurs [openBrace] s p
    ((occursAt_singleton _ _ _).mpr hpo)
  have hio : s[i]? = some openBrace :=
    (occursAt_singleton _ _ _).mp (findSubstrFrom_some_occurs _ _ _ hi)
  have hileast := findSubstrFrom_some_least [openBrace] s i hi
  have hip : i ≤ p := by
    by_contra hc
    exact hileast p (by omega) ((occursAt_singleton _ _ _).mpr hpo)
  obtain ⟨k, hk⟩ := findSubstrFrom_isSome_of_occurs [closeBrace] s.reverse
    (s.length - 1 - (p + (u.length - 1)))
    ((occursAt_singleton _ _ _).mpr (reverse_getElem?_of hpc))
  obtain ⟨hklen, hjc, hjlast⟩ := lastOccurrence_spec closeBrace s k hk
  have hpj : p + (u.length - 1) ≤ s.length - 1 - k := by
    by_contra hc
    exact hjlast (p + (u.length - 1)) (by omega) hpc
  have hij : i < s.length - 1 - k := by omega
  have hb := braceDelimited_of_span s i (s.length - 1 - k) hij (by omega) hio hjc
  refine ⟨(s.drop i).take (s.length - 1 - k - i + 1), ?_, hb.1, ?_⟩
  · simp only [extractBraced, hi, hk]
    rw [if_pos hij]
  · intro u' hu'
    have hul' := braceDelimited_length u' s hu'
    obtain ⟨p', hps', hpo', hpc'⟩ := braceDelimited_positions u' s hu'
    have hip' : i ≤ p' := by
      by_contra hc
      exact hileast p' (by omega) ((occursAt_singleton _ _ _).mpr hpo')
    have hjp' : p' + (u'.length - 1) ≤ s.length - 1 - k := by
      by_contra hc
      exact hjlast (p' + (u'.length - 1)) (by omega) hpc'
    rw [hb.2]
    omega

/-- A successful braced extraction yields a brace-delimited substring. -/
theorem extractBraced_some (s b : List Char) (h : extractBraced s = some b) :
    braceDelimited b s := by
  rcases hi : findSubstrFrom [openBrace] s with _ | i
  · simp only [extractBraced, hi] at h
    cases h
  · rcases hk : findSubstrFrom [closeBrace] s.reverse with _ | k
    · simp only [extractBraced, hi, hk] at h
      cases h
    · simp only [extractBraced, hi, hk] at h
      by_cases hij : i < s.length - 1 - k
      · rw [if_pos hij] at h
        obtain ⟨hklen, hjc, _⟩ := lastOccurrence_spec closeBrace s k hk
        have hio : s[i]? = some openBrace :=
          (occursAt_singleton _ _ _).mp (findSubstrFrom_some_occurs _ _ _ hi)
        have hb := braceDelimited_of_span s i (s.length - 1 - k) hij (by omega) hio hjc
        cases h
        exact hb.1
      · rw [if_neg hij] at h
        cases h

/-- Without any brace-delimited substring, the braced extraction fails. -/
theorem extractBraced_eq_none (s : List Char) (h : ∀ u, ¬ braceDelimited u s) :
    extractBraced s = none := by
  rcases hb : extractBraced s with _ | b
  · rfl
  · exact absurd (extractBraced_some s b hb) (h b)

/-- C8: `_extract_json_from_response` selects its candidate substring by trying,
in order with the first match winning: (1) the interior of the first fenced json
block (opening delimiter at its leftmost occurrence, closing delimiter at the
first occurrence after it); (2) otherwise the greedy brace span, which is a
longest brace-delimited substring of the text; (3) otherwise the entire text.
If the selected substring does not parse as JSON (for any parser), the failure
carries exactly the first 200 characters of the original text — never the full
text when the text is longer than 200 characters. -/
theorem claim_C8_extraction_strategy {α : Type} (jparse : List Char → Option α)
    (s : List Char) :
    (hasFencedBlock s →
      ∃ i j, occursAt fenceOpen s i ∧ (∀ k, k < i → ¬ occursAt fenceOpen s k) ∧
        occursAt fenceClose s (i + fenceOpen.length + j) ∧
        (∀ q, q < j → ¬ occursAt fenceClose s (i + fenceOpen.length + q)) ∧
        selectJsonCandidate s = (s.drop (i + fenceOpen.length)).take j) ∧
    (¬ hasFencedBlock s → (∃ u, braceDelimited u s) →
      braceDelimited (selectJsonCandidate s) s ∧
      ∀ u, braceDelimited u s → u.length ≤ (selectJsonCandidate s).length) ∧
    (¬ hasFencedBlock s → (∀ u, ¬ braceDelimited u s) → selectJsonCandidate s = s) ∧
    (jparse (selectJsonCandidate s) = none →
      extract_json_from_response jparse s = .error (s.take 200) ∧
      (s.take 200).length ≤ 200 ∧ (200 < s.length → s.take 200 ≠ s)) := by
  refine ⟨fun hf => ?_, fun hnf hbr => ?_, fun hnf hnb => ?_, fun hp => ?_⟩
  · obtain ⟨i, j, h1, h2, h3, h4, h5⟩ := extractFenced_spec s hf
    exact ⟨i, j, h1, h2, h3, h4, by simp only [selectJsonCandidate, h5]⟩
  · obtain ⟨b, hb, hbd, hmax⟩ := extractBraced_spec s hbr
    have hsel : selectJsonCandidate s = b := by
      simp only [selectJsonCandidate, extractFenced_eq_none s hnf, hb]
    rw [hsel]
    exact ⟨hbd, hmax⟩
  · simp only [selectJsonCandidate, extractFenced_eq_none s hnf,
      extractBraced_eq_none s hnb]
  · refine ⟨by simp only [extract_json_from_response, hp], ?_, ?_⟩
    · simp [List.length_take]
    · intro hlong heq
      have := congrArg List.length heq
      simp [List.length_take] at this
      omega

/-- C8 witness: on a text with no fence and no brace pair that no parser
accepts, extraction fails carrying the 200-character prefix (here the whole
short text). -/
theorem claim_C8_extraction_strategy_witness :
    extract_json_from_response (fun _ => (none : Option Unit)) "unparseable".toList =
      .error ("unparseable".toList.take 200) :=
  ((claim_C8_extraction_strategy (fun _ => (none : Option Unit))
    "unparseable".toList).2.2.2 rfl).1

end ResumeTwin
